import Mathlib

/-!
# A verification development for the pybiopax BioPAX model core

This file embeds, in Lean, the parts of the pybiopax repository relevant to
the checked claims:

* `pybiopax/physical_entity.py` — the PhysicalEntity class hierarchy, the
  per-class `list_types` declarations and the attributes set by each
  `__init__` method;
* `pybiopax/api.py` — the entry points `model_from_owl_str`,
  `model_from_owl_file`, `model_from_owl_url`, `model_to_owl_str`, and the
  `*cyc` download helpers;
* `pybiopax/analysis/creeds_analysis.py` — `get_protein_hgnc` and
  `_prepare_hypergeometric_test`.

The parse/serialize core (`BioPaxModel.from_xml` / `to_xml`, `xml_util`,
`biopax.base`) is not part of the given sources; those pieces are modelled
from the specification and are marked `Modelled from the spec:` in their
doc comments.  Machine-level XML strings are modelled as token lists
(already-lexed open/close/text tokens).
-/

namespace PyBioPax

/-! ## The class hierarchy of `pybiopax/physical_entity.py`

One constructor per Python class that appears in the file, plus the
imported base class `Entity` (`from .base import Entity`). -/

inductive PEClass where
  | entity
  | physicalEntity
  | simplePhysicalEntity
  | protein
  | smallMolecule
  | rna
  | dna
  | complex
deriving DecidableEq, Repr

/-- The direct superclass of each class, read off the `class C(B):`
headers of `physical_entity.py` (`Entity` is the imported root). -/
def superclass : PEClass → Option PEClass
  | .entity => none
  | .physicalEntity => some .entity
  | .simplePhysicalEntity => some .physicalEntity
  | .protein => some .simplePhysicalEntity
  | .smallMolecule => some .simplePhysicalEntity
  | .rna => some .simplePhysicalEntity
  | .complex => some .physicalEntity
  | .dna => some .simplePhysicalEntity

/-- Walk the superclass chain (fuel-bounded; the hierarchy has depth < 8). -/
def mroAux : Nat → Option PEClass → List PEClass
  | 0, _ => []
  | _, none => []
  | Nat.succ n, some c => c :: mroAux n (superclass c)

/-- The method resolution order of a class: the class itself followed by
its ancestor chain (single inheritance throughout `physical_entity.py`). -/
def mro (c : PEClass) : List PEClass := mroAux 8 (some c)

/-- `IsSubclassOf c d` holds when `d` appears in the ancestor chain of `c`
(in Python terms, `issubclass(c, d)`).  Every class is a subclass of
itself. -/
def IsSubclassOf (c d : PEClass) : Prop := d ∈ mro c

instance (c d : PEClass) : Decidable (IsSubclassOf c d) := by
  unfold IsSubclassOf; infer_instance

/-! ## Attributes set by the `__init__` methods -/

/-- Modelled from the spec: the attributes of the base class `Entity`
(`pybiopax/biopax/base.py` is not among the given sources).  Per §3 of the
spec an Entity carries a globally unique identifier, a collection of Xref
cross-references, and optional comment/name fields. -/
def entityAttrs : List String := ["uid", "xref", "comment", "name"]

/-- The attributes each class's own `__init__` sets on `self`, verbatim
from `physical_entity.py` (classes whose body is `pass` add nothing). -/
def ownAttrs : PEClass → List String
  | .entity => entityAttrs
  | .physicalEntity =>
      ["feature", "not_feature", "controller_of", "component_of",
       "member_physical_entity_of", "member_physical_entity",
       "cellular_location"]
  | .simplePhysicalEntity => ["entity_reference"]
  | .protein => []
  | .smallMolecule => []
  | .rna => []
  | .dna => []
  | .complex => ["component", "component_stoichiometry"]

/-- The attributes present on an instance of class `c`: each `__init__`
calls `super().__init__(**kwargs)` first, so ancestors' attributes are set
first and every inherited attribute is always present. -/
def attrsOf (c : PEClass) : List String :=
  ((mro c).reverse).flatMap ownAttrs

/-! ## The `list_types` class attribute -/

/-- The `list_types` assignment appearing literally in the body of each
class of `physical_entity.py` (only `PhysicalEntity` and `Complex` have
one). -/
def ownListTypes : PEClass → Option (List String)
  | .physicalEntity => some ["feature", "not_feature", "member_physical_entity"]
  | .complex => some ["component", "component_stoichiometry"]
  | _ => none

/-- The effective value of `C.list_types` under Python attribute lookup:
the first class in the method resolution order that assigns `list_types`.
(`Entity`'s base is modelled from the spec as declaring no multi-valued
attributes, hence the `[]` default.) -/
def listTypes (c : PEClass) : List String :=
  match (mro c).findSome? ownListTypes with
  | some l => l
  | none => []

/-- The RDF/XML element tag / Python class name of each class. -/
def className : PEClass → String
  | .entity => "Entity"
  | .physicalEntity => "PhysicalEntity"
  | .simplePhysicalEntity => "SimplePhysicalEntity"
  | .protein => "Protein"
  | .smallMolecule => "SmallMolecule"
  | .rna => "Rna"
  | .dna => "Dna"
  | .complex => "Complex"

/-! ## Errors raised by the parse pipeline

Modelled from the spec (§7): a `ParseError` is fatal and carries location
context; a `ResolutionError` names the offending identifier and the
referencing attribute.  (`UnknownTypeError` is recoverable — unknown
elements are skipped — so it never appears in a returned result.) -/

inductive BioPaxError where
  | parseErr (loc : Nat)
  | resolutionErr (uid : String) (attr : String)
deriving DecidableEq, Repr

/-! ## XML documents as token streams

Modelled from the spec: the wire format handled by the RDF/XML Reader
(§4.2).  A serialized document is a stream of already-lexed markup tokens;
a well-formed document is the flattening of a single rooted element tree. -/

inductive Tok where
  | openTag (tag : String) (attrs : List (String × String))
  | closeTag (tag : String)
  | textTok (s : String)
deriving DecidableEq, Repr

inductive XNode where
  | elem (tag : String) (attrs : List (String × String)) (children : List XNode)
  | text (s : String)
deriving Repr

mutual

/-- Flatten one XML node to its token stream. -/
def printNode : XNode → List Tok
  | XNode.elem t a cs => Tok.openTag t a :: (printNodes cs ++ [Tok.closeTag t])
  | XNode.text s => [Tok.textTok s]

/-- Flatten a forest of XML nodes to its token stream. -/
def printNodes : List XNode → List Tok
  | [] => []
  | n :: ns => printNode n ++ printNodes ns

end

/-- Modelled from the spec: the RDF/XML Reader's recovery of an element
forest from a token stream.  `parseNodes fuel pos toks` parses a maximal
forest from `toks`, stopping at a close tag or at the end of input, and
returns the forest, the unconsumed remainder and the updated position;
a structural fault is reported as a `ParseError` carrying the position.
`fuel` bounds recursion depth; `toks.length + 1` always suffices. -/
def parseNodes : Nat → Nat → List Tok → Except BioPaxError (List XNode × List Tok × Nat)
  | 0, pos, _ => .error (.parseErr pos)
  | _ + 1, pos, [] => .ok ([], [], pos)
  | _ + 1, pos, Tok.closeTag t :: rest => .ok ([], Tok.closeTag t :: rest, pos)
  | f + 1, pos, Tok.textTok s :: rest =>
      match parseNodes f (pos + 1) rest with
      | .error e => .error e
      | .ok (ns, rem, p) => .ok (XNode.text s :: ns, rem, p)
  | f + 1, pos, Tok.openTag t a :: rest =>
      match parseNodes f (pos + 1) rest with
      | .error e => .error e
      | .ok (cs, rem1, p1) =>
        match rem1 with
        | Tok.closeTag t' :: rest2 =>
          if t' = t then
            match parseNodes f (p1 + 1) rest2 with
            | .error e => .error e
            | .ok (ns, rem2, p2) => .ok (XNode.elem t a cs :: ns, rem2, p2)
          else .error (.parseErr p1)
        | _ => .error (.parseErr p1)

/-- Modelled from the spec: `lxml.etree.fromstring` at the token level —
a well-formed document is exactly one root element with nothing left
over; anything else is a fatal `ParseError` with location context. -/
def fromstring (toks : List Tok) : Except BioPaxError XNode :=
  match parseNodes (toks.length + 1) 0 toks with
  | .error e => .error e
  | .ok (ns, rem, pos) =>
    match ns, rem with
    | [XNode.elem t a cs], [] => .ok (XNode.elem t a cs)
    | _, _ => .error (.parseErr pos)

/-- A token stream is well-formed XML when it is the flattening of a
single rooted element. -/
def WellFormedXml (toks : List Tok) : Prop :=
  ∃ t a cs, toks = printNode (XNode.elem t a cs)

/-! ## The in-memory object graph

Modelled from the spec (§3, §9): a model object is a type tag plus a
uniform attribute map; attribute values are primitive/enumerated literals
or identifier-valued references, single or accumulated into a sequence
according to the schema's multiplicity declaration. -/

inductive AVal where
  | lit (s : String)
  | ref (uid : String)
deriving DecidableEq, Repr

inductive AttrVal where
  | single (v : AVal)
  | multi (vs : List AVal)
deriving DecidableEq, Repr

structure BObj where
  cls : String
  uid : String
  attrs : List (String × AttrVal)
deriving DecidableEq, Repr

structure Model where
  objects : List BObj
deriving DecidableEq, Repr

/-- Look up the first binding of a key in an association list. -/
def alookup {β : Type} : List (String × β) → String → Option β
  | [], _ => none
  | (m, w) :: rest, n => if m = n then some w else alookup rest n

/-- Replace the binding of `n` in place if present, else append it. -/
def setAttr {β : Type} : List (String × β) → String → β → List (String × β)
  | [], n, v => [(n, v)]
  | (m, w) :: rest, n, v =>
      if m = n then (m, v) :: rest else (m, w) :: setAttr rest n v

/-- Modelled from the spec (§4.3, §7): populate one property into an
object's attribute map.  An attribute declared multi-valued for the class
(`n ∈ lt`, the class's `list_types`) accumulates into a sequence; a
single-valued attribute is overwritten, so the last value wins. -/
def addProp (lt : List String) (attrs : List (String × AttrVal)) (n : String) (v : AVal) :
    List (String × AttrVal) :=
  if n ∈ lt then
    match alookup attrs n with
    | some (AttrVal.multi vs) => setAttr attrs n (AttrVal.multi (vs ++ [v]))
    | some (AttrVal.single _) => setAttr attrs n (AttrVal.multi [v])
    | none => attrs ++ [(n, AttrVal.multi [v])]
  else
    match alookup attrs n with
    | some _ => setAttr attrs n (AttrVal.single v)
    | none => attrs ++ [(n, AttrVal.single v)]

/-! ## Writer (Modelled from the spec, §4.5) -/

/-- Emit one property value: a literal becomes a nested text element, a
reference becomes an `rdf:resource` token — never an inline nested
definition. -/
def attrToXml (n : String) : AVal → XNode
  | AVal.lit s => XNode.elem n [] [XNode.text s]
  | AVal.ref u => XNode.elem n [("rdf:resource", u)] []

/-- Multi-valued attributes are emitted as repeated property elements. -/
def attrEntryToXml : String × AttrVal → List XNode
  | (n, AttrVal.single v) => [attrToXml n v]
  | (n, AttrVal.multi vs) => vs.map (attrToXml n)

/-- One top-level element per object, carrying its stable identifier as
the RDF identity attribute. -/
def objToXml (o : BObj) : XNode :=
  XNode.elem o.cls [("rdf:about", o.uid)] (o.attrs.flatMap attrEntryToXml)

/-- Modelled from the spec: `BioPaxModel.to_xml` — walk the full object
set and emit one element per object under the `rdf:RDF` root, in the
model's stable object order. -/
def Model.to_xml (m : Model) : XNode :=
  XNode.elem "rdf:RDF" [] (m.objects.map objToXml)

/-! ## Reader and two-pass graph builder (Modelled from the spec, §4.2–4.3) -/

/-- Recognize a property child element: a sole `rdf:resource` attribute
yields a reference token, a sole text child yields a literal; anything
else is not a recognizable property. -/
def propOfXml : XNode → Option (String × AVal)
  | XNode.elem n attrs children =>
    match attrs, children with
    | [(k, u)], [] => if k = "rdf:resource" then some (n, AVal.ref u) else none
    | [], [XNode.text s] => some (n, AVal.lit s)
    | _, _ => none
  | XNode.text _ => none

/-- An element record produced by the Reader (spec §4.2): local tag,
resolved identifier if any, and the property list. -/
structure ElemRecord where
  tag : String
  uid : Option String
  props : List (String × AVal)
deriving Repr

/-- Read one top-level child of the document root into an element record;
top-level text is not a record. -/
def readRecord : XNode → Option ElemRecord
  | XNode.elem tag attrs children =>
      some { tag := tag, uid := alookup attrs "rdf:about",
             props := children.filterMap propOfXml }
  | XNode.text _ => none

/-- One population step: fold a `(name, value)` property into the
attribute map. -/
def popStep (lt : List String) (acc : List (String × AttrVal)) (p : String × AVal) :
    List (String × AttrVal) :=
  addProp lt acc p.1 p.2

/-- Modelled from the spec: build one typed object from a record.  An
element whose tag is not in the schema registry is skipped
(recoverable `UnknownTypeError` policy), as is a record without an
identifier; otherwise the attributes are populated per the class's
multiplicity declarations. -/
def buildObj (reg : String → Option (List String)) (r : ElemRecord) : Option BObj :=
  match reg r.tag, r.uid with
  | some lt, some u =>
      some { cls := r.tag, uid := u, attrs := r.props.foldl (popStep lt) [] }
  | _, _ => none

/-- Modelled from the spec: allocation keyed by identifier — a later
definition of an already-seen identifier overwrites the earlier one in
place (last definition wins, allocation order kept). -/
def upsertObj (objs : List BObj) (o : BObj) : List BObj :=
  if objs.any (fun x => x.uid = o.uid) then
    objs.map (fun x => if x.uid = o.uid then o else x)
  else objs ++ [o]

/-- The identifiers referenced by one attribute value. -/
def attrValRefs : AttrVal → List String
  | AttrVal.single (AVal.ref u) => [u]
  | AttrVal.single (AVal.lit _) => []
  | AttrVal.multi vs =>
      vs.filterMap (fun v => match v with | AVal.ref u => some u | AVal.lit _ => none)

/-- All identifiers referenced by an object's attributes. -/
def objRefs (o : BObj) : List String :=
  o.attrs.flatMap (fun p => attrValRefs p.2)

/-- Finalization check for one object: the first reference token that
does not resolve to an allocated identifier, with the referencing
attribute. -/
def objDangling (ids : List String) (o : BObj) : Option (String × String) :=
  o.attrs.findSome? (fun p =>
    ((attrValRefs p.2).find? (fun u => !(ids.contains u))).map (fun u => (u, p.1)))

/-- The object list the graph builder assembles from the root's
children: records read, unknown/id-less records skipped, objects
upserted keyed by identifier. -/
def builtObjs (reg : String → Option (List String)) (children : List XNode) :
    List BObj :=
  ((children.filterMap readRecord).filterMap (buildObj reg)).foldl upsertObj []

/-- Modelled from the spec: `BioPaxModel.from_xml` — read the root's
children into element records, run the two-pass allocation/population
(fused here: objects are upserted fully built, which yields the same
last-definition-wins result), then the finalization check that every
reference token resolved; a dangling reference is a fatal
`ResolutionError` naming the identifier and the referencing attribute. -/
def Model.from_xml (reg : String → Option (List String)) (root : XNode) :
    Except BioPaxError Model :=
  match root with
  | XNode.elem _ _ children =>
      match (builtObjs reg children).findSome?
          (objDangling ((builtObjs reg children).map BObj.uid)) with
      | some (u, attr) => .error (.resolutionErr u attr)
      | none => .ok { objects := builtObjs reg children }
  | XNode.text _ => .error (.parseErr 0)

/-- The schema registry restricted to the classes of
`physical_entity.py`: each class name maps to its effective `list_types`
under Python attribute lookup (taken from the source embedding above). -/
def allPEClasses : List PEClass :=
  [.entity, .physicalEntity, .simplePhysicalEntity, .protein,
   .smallMolecule, .rna, .dna, .complex]

def bioPaxRegistry (tag : String) : Option (List String) :=
  (allPEClasses.find? (fun c => className c = tag)).map listTypes

/-! ## The api.py entry points -/

/-- `model_from_owl_str` from `pybiopax/api.py`:
`BioPaxModel.from_xml(etree.fromstring(owl_str.encode('utf-8')))`. -/
def model_from_owl_str (toks : List Tok) : Except BioPaxError Model :=
  match fromstring toks with
  | .error e => .error e
  | .ok tree => Model.from_xml bioPaxRegistry tree

/-- `model_to_owl_str` from `pybiopax/api.py`:
`xml_to_str(model.to_xml())`, with `xml_to_str` (not under src/)
modelled from the spec as the token flattening of the XML tree. -/
def model_to_owl_str (m : Model) : List Tok :=
  printNode (Model.to_xml m)

/-- `model_from_owl_file` from `pybiopax/api.py`: read the file's text
content and delegate to `model_from_owl_str`.  The file system is an
explicit map from names to decoded contents; a missing file is `none`
(the `open` call would raise outside the BioPAX error taxonomy). -/
def model_from_owl_file (fs : String → Option (List Tok)) (fname : String) :
    Option (Except BioPaxError Model) :=
  (fs fname).map model_from_owl_str

/-- An HTTP response as seen by `requests.get`. -/
structure HttpResponse where
  statusCode : Nat
  text : List Tok

/-- `model_from_owl_url` from `pybiopax/api.py`: `requests.get`, then
`raise_for_status()` (which raises exactly when the status code is 400 or
above, modelled as `none`), then `model_from_owl_str(res.text)`. -/
def model_from_owl_url (http : String → HttpResponse) (url : String) :
    Option (Except BioPaxError Model) :=
  let res := http url
  if res.statusCode < 400 then some (model_from_owl_str res.text) else none

/-! ## The `*cyc` download helpers of api.py -/

/-- The HTTP request a `_model_from_xcyc`-based helper issues: base URL
plus query parameters. -/
structure XcycRequest where
  baseUrl : String
  params : List (String × String)
deriving DecidableEq, Repr

/-- `_model_from_xcyc` from `pybiopax/api.py`: requests the given base
URL with query parameters `type='3'` and `object=identifier`. -/
def xcycRequest (url identifier : String) : XcycRequest :=
  { baseUrl := url, params := [("type", "3"), ("object", identifier)] }

/-- The request issued by `model_from_metacyc` (the base URL string is
verbatim from `pybiopax/api.py`). -/
def metacycRequest (identifier : String) : XcycRequest :=
  xcycRequest "https://ecocyc.org/ECOLI/pathway-biopax" identifier

/-- The request issued by `model_from_ecocyc` (the base URL string is
verbatim from `pybiopax/api.py`). -/
def ecocycRequest (identifier : String) : XcycRequest :=
  xcycRequest "https://metacyc.org/META/pathway-biopax" identifier

/-- The host part of an `https://` URL (drop the 8-character scheme,
keep everything up to the next slash). -/
def urlHost (u : String) : String :=
  ((u.toList.drop 8).takeWhile (fun c => c ≠ '/')).asString

/-! ## The type query of the Model Container -/

/-- The registry class named by a tag, if any. -/
def classOfName (tag : String) : Option PEClass :=
  allPEClasses.find? (fun c => className c = tag)

/-- The concrete classes named in the type-query claim. -/
def concretePEClasses : List PEClass :=
  [.protein, .smallMolecule, .rna, .dna, .complex]

/-- Modelled from the spec (§4.4): `Model.objects_of_type` — the objects
whose runtime class is, or (when `includeSubtypes` is requested) is a
descendant of, the given class, in the model's stable object order. -/
def objects_of_type (m : Model) (c : PEClass) (includeSubtypes : Bool) : List BObj :=
  m.objects.filter (fun o =>
    match classOfName o.cls with
    | some k => if includeSubtypes then decide (IsSubclassOf k c) else decide (k = c)
    | none => false)

/-! ## `pybiopax/analysis/creeds_analysis.py` -/

/-- An Xref cross-reference: a database name plus an identifier in that
database (the class itself lives outside src/; its `db`/`id` fields are
the ones `get_protein_hgnc` reads, per §3 of the spec). -/
structure Xref where
  db : String
  id : String
deriving DecidableEq, Repr

/-- Modelled from the spec (§3): an EntityReference carries the set of
Xref entries that ground a physical entity in external nomenclature. -/
structure EntityReference where
  xref : List Xref
deriving DecidableEq, Repr

/-- A Protein as consumed by `get_protein_hgnc`: its `entity_reference`
attribute (set by `SimplePhysicalEntity.__init__` in
`physical_entity.py`, default `None`). -/
structure ProteinObj where
  entity_reference : Option EntityReference
deriving DecidableEq, Repr

/-- The dictionary comprehension
`rv = {normalize_prefix(xref.db): xref.id for xref in er.xref}` followed
by `rv.get(key)`: for a repeated key the last entry wins, so this is the
id of the last xref whose normalized database name equals `key`. -/
def xrefDictGet (normDb : String → Option String) (xrefs : List Xref) (key : String) :
    Option String :=
  (xrefs.reverse.find? (fun x => normDb x.db == some key)).map Xref.id

/-- Python truthiness of an `Optional[str]`: `None` and `''` are falsy. -/
def pyTruthy : Option String → Bool
  | none => false
  | some s => decide (s ≠ "")

/-- The HGNC id obtained through a `uniprot` xref: look the key up in the
dict, then map through `protmapper.uniprot_client.get_hgnc_id`. -/
def uniprotRoute (normDb getHgncId : String → Option String) (er : EntityReference) :
    Option String :=
  match xrefDictGet normDb er.xref "uniprot" with
  | some u => getHgncId u
  | none => none

/-- The HGNC id obtained through a `uniprot.isoform` xref. -/
def isoformRoute (normDb getHgncId : String → Option String) (er : EntityReference) :
    Option String :=
  match xrefDictGet normDb er.xref "uniprot.isoform" with
  | some u => getHgncId u
  | none => none

/-- `get_protein_hgnc` from `creeds_analysis.py`, with the external
services `bioregistry.normalize_prefix` and
`protmapper.uniprot_client.get_hgnc_id` passed in as functions.  A direct
`hgnc` entry is returned under an `is not None` check; the two mapped
routes are returned under Python truthiness checks. -/
def get_protein_hgnc (normDb getHgncId : String → Option String) (p : ProteinObj) :
    Option String :=
  match p.entity_reference with
  | none => none
  | some er =>
    match xrefDictGet normDb er.xref "hgnc" with
    | some h => some h
    | none =>
      let viaU := uniprotRoute normDb getHgncId er
      if pyTruthy viaU then viaU
      else
        let viaI := isoformRoute normDb getHgncId er
        if pyTruthy viaI then viaI else none

/-- `_prepare_hypergeometric_test` from `creeds_analysis.py`: the 2x2
contingency matrix, entries as in the `np.array` literal (row major). -/
def prepareHypergeometricTest (queryGeneSet pathwayGeneSet : Finset String)
    (geneUniverse : Int) : (Int × Int) × (Int × Int) :=
  ((((queryGeneSet ∩ pathwayGeneSet).card : Int),
    ((queryGeneSet \ pathwayGeneSet).card : Int)),
   (((pathwayGeneSet \ queryGeneSet).card : Int),
    geneUniverse - ((pathwayGeneSet ∪ queryGeneSet).card : Int)))

/-! ## Well-formedness of models, as guaranteed by the parse path -/

/-- The flattening of one attribute entry into `(name, value)` property
pairs, as they appear on the wire. -/
def flatAttr : String × AttrVal → List (String × AVal)
  | (n, AttrVal.single v) => [(n, v)]
  | (n, AttrVal.multi vs) => vs.map (fun v => (n, v))

/-- Association-list keys are pairwise distinct. -/
def NodupKeys {β : Type} (l : List (String × β)) : Prop :=
  (l.map Prod.fst).Nodup

/-- An attribute entry agrees with the class's multiplicity declaration
`lt`: multi-valued attributes hold a (nonempty, once populated) sequence,
single-valued attributes a single value. -/
def GoodShape (lt : List String) (p : String × AttrVal) : Prop :=
  match p.2 with
  | AttrVal.single _ => p.1 ∉ lt
  | AttrVal.multi vs => p.1 ∈ lt ∧ vs ≠ []

/-- A model object as the graph builder produces it: known class, nodup
attribute keys, multiplicities matching the schema. -/
def WFObj (reg : String → Option (List String)) (o : BObj) : Prop :=
  ∃ lt, reg o.cls = some lt ∧ NodupKeys o.attrs ∧ ∀ p ∈ o.attrs, GoodShape lt p

/-- A model as the parse path produces it: unique identifiers,
well-formed objects, and reference tokens all resolving inside the
model (spec §3 invariants). -/
def WFModel (reg : String → Option (List String)) (m : Model) : Prop :=
  (m.objects.map BObj.uid).Nodup ∧
  (∀ o ∈ m.objects, WFObj reg o) ∧
  (∀ o ∈ m.objects, ∀ u ∈ objRefs o, u ∈ m.objects.map BObj.uid)

/-- Token streams at which the forest parser stops: end of input or a
close tag. -/
def StopsHere (l : List Tok) : Prop :=
  l = [] ∨ ∃ t r, l = Tok.closeTag t :: r

/-!
# Theorems for the checked claims
-/

/-- Claim C2 (code-bug evaluation): in `physical_entity.py` the class
attribute `Complex.list_types = ['component', 'component_stoichiometry']`
shadows `PhysicalEntity.list_types` instead of extending it, so under
Python attribute lookup the inherited multi-valued declarations
`feature`, `not_feature` and `member_physical_entity` do NOT appear in
Complex's effective `list_types`, even though `Complex` is a subclass of
`PhysicalEntity` and those attributes are declared multi-valued there.
Consequently a Complex element carrying two `feature` values parses with
`feature` treated single-valued: the second value overwrites the first. -/
theorem complex_list_types_shadow_inherited :
    listTypes PEClass.complex = ["component", "component_stoichiometry"] ∧
    "feature" ∉ listTypes PEClass.complex ∧
    "not_feature" ∉ listTypes PEClass.complex ∧
    "member_physical_entity" ∉ listTypes PEClass.complex ∧
    IsSubclassOf PEClass.complex PEClass.physicalEntity ∧
    "feature" ∈ listTypes PEClass.physicalEntity ∧
    "not_feature" ∈ listTypes PEClass.physicalEntity ∧
    "member_physical_entity" ∈ listTypes PEClass.physicalEntity ∧
    model_from_owl_str (printNode (XNode.elem "rdf:RDF" []
        [XNode.elem "Complex" [("rdf:about", "c1")]
          [XNode.elem "feature" [] [XNode.text "f1"],
           XNode.elem "feature" [] [XNode.text "f2"]]]))
      = .ok ⟨[⟨"Complex", "c1", [("feature", AttrVal.single (AVal.lit "f2"))]⟩]⟩ := by
  refine ⟨by decide, by decide, by decide, by decide, by decide, by decide,
    by decide, by decide, ?_⟩
  rfl

/-- Claim C4: in the class hierarchy of `physical_entity.py`, Protein,
SmallMolecule, Rna, Dna and Complex are all descendants of
PhysicalEntity and none is a descendant of another concrete sibling; on
a model holding one Protein, one SmallMolecule and one Complex, the type
query for PhysicalEntity with subtypes returns all three objects and the
type query for Protein without subtypes returns exactly the Protein. -/
theorem type_query_correctness :
    (objects_of_type
        ⟨[⟨"Protein", "p", []⟩, ⟨"SmallMolecule", "s", []⟩, ⟨"Complex", "c", []⟩]⟩
        PEClass.physicalEntity true
      = [⟨"Protein", "p", []⟩, ⟨"SmallMolecule", "s", []⟩, ⟨"Complex", "c", []⟩]) ∧
    (objects_of_type
        ⟨[⟨"Protein", "p", []⟩, ⟨"SmallMolecule", "s", []⟩, ⟨"Complex", "c", []⟩]⟩
        PEClass.protein false
      = [⟨"Protein", "p", []⟩]) ∧
    (concretePEClasses.all
      (fun c => decide (IsSubclassOf c PEClass.physicalEntity)) = true) ∧
    (concretePEClasses.all (fun c => concretePEClasses.all (fun d =>
        decide (c = d) || !(decide (IsSubclassOf c d)))) = true) := by
  decide

/-- Claim C5: `Complex.component` and
`SimplePhysicalEntity.entity_reference` are mutually exclusive
populations — each SimplePhysicalEntity variant (Protein, SmallMolecule,
Rna, Dna) carries an `entity_reference` attribute that is single-valued
(absent from its effective `list_types`) and no `component` attribute,
while Complex carries `component` and no `entity_reference`. -/
theorem component_entity_reference_mutually_exclusive :
    ("entity_reference" ∈ attrsOf PEClass.protein) ∧
    ("entity_reference" ∈ attrsOf PEClass.smallMolecule) ∧
    ("entity_reference" ∈ attrsOf PEClass.rna) ∧
    ("entity_reference" ∈ attrsOf PEClass.dna) ∧
    ("entity_reference" ∉ attrsOf PEClass.complex) ∧
    ("component" ∈ attrsOf PEClass.complex) ∧
    ("component" ∉ attrsOf PEClass.protein) ∧
    ("component" ∉ attrsOf PEClass.smallMolecule) ∧
    ("component" ∉ attrsOf PEClass.rna) ∧
    ("component" ∉ attrsOf PEClass.dna) ∧
    ("entity_reference" ∉ listTypes PEClass.protein) ∧
    ("entity_reference" ∉ listTypes PEClass.smallMolecule) ∧
    ("entity_reference" ∉ listTypes PEClass.rna) ∧
    ("entity_reference" ∉ listTypes PEClass.dna) := by
  decide

/-- Claim C6: every class below PhysicalEntity carries, beyond the
Entity attributes, exactly the attributes `PhysicalEntity.__init__`
sets — `feature`, `not_feature`, `controller_of`, `component_of`,
`member_physical_entity_of`, `member_physical_entity` and
`cellular_location` — and each of them is present on every such class. -/
theorem physical_entity_attrs (c : PEClass)
    (h : IsSubclassOf c PEClass.physicalEntity) :
    (∀ a ∈ ownAttrs PEClass.physicalEntity, a ∈ attrsOf c) ∧
    attrsOf PEClass.physicalEntity = entityAttrs ++ ownAttrs PEClass.physicalEntity ∧
    ownAttrs PEClass.physicalEntity =
      ["feature", "not_feature", "controller_of", "component_of",
       "member_physical_entity_of", "member_physical_entity",
       "cellular_location"] := by
  revert h; cases c <;> decide

theorem physical_entity_attrs_witness :
    IsSubclassOf PEClass.complex PEClass.physicalEntity ∧
    ((∀ a ∈ ownAttrs PEClass.physicalEntity, a ∈ attrsOf PEClass.complex) ∧
     attrsOf PEClass.physicalEntity = entityAttrs ++ ownAttrs PEClass.physicalEntity ∧
     ownAttrs PEClass.physicalEntity =
       ["feature", "not_feature", "controller_of", "component_of",
        "member_physical_entity_of", "member_physical_entity",
        "cellular_location"]) :=
  ⟨by decide, physical_entity_attrs PEClass.complex (by decide)⟩

/-- Claim C7: the file and URL entry points are pure compositions of
fetch and parse — when the file system holds content `s` under `fname`,
`model_from_owl_file` returns exactly `model_from_owl_str s`, and when
the HTTP response for `url` is successful with body `s`,
`model_from_owl_url` returns exactly `model_from_owl_str s`. -/
theorem file_url_entry_points_compose (fs : String → Option (List Tok))
    (http : String → HttpResponse) (fname url : String) (s : List Tok) :
    (fs fname = some s →
      model_from_owl_file fs fname = some (model_from_owl_str s)) ∧
    ((http url).statusCode < 400 → (http url).text = s →
      model_from_owl_url http url = some (model_from_owl_str s)) := by
  constructor
  · intro h
    simp [model_from_owl_file, h]
  · intro h1 h2
    simp [model_from_owl_url, h1, h2]

theorem file_url_entry_points_compose_witness :
    ((fun _ : String => some ([] : List Tok)) "f" = some ([] : List Tok) ∧
      model_from_owl_file (fun _ => some ([] : List Tok)) "f"
        = some (model_from_owl_str [])) ∧
    (((fun _ : String => HttpResponse.mk 200 []) "u").statusCode < 400 ∧
      model_from_owl_url (fun _ => HttpResponse.mk 200 []) "u"
        = some (model_from_owl_str [])) :=
  ⟨⟨rfl, (file_url_entry_points_compose (fun _ => some []) (fun _ => ⟨200, []⟩)
      "f" "u" []).1 rfl⟩,
   ⟨by decide, (file_url_entry_points_compose (fun _ => some []) (fun _ => ⟨200, []⟩)
      "f" "u" []).2 (by decide) rfl⟩⟩

/-- Claim C8 (code-bug evaluation): in `api.py` the two endpoint URLs
are swapped relative to the functions' own docstrings —
`model_from_ecocyc` builds its download request against host
`metacyc.org` and `model_from_metacyc` against host `ecocyc.org` — while
the query parameters `type='3'` and `object=identifier` are as
documented. -/
theorem xcyc_endpoint_hosts_swapped :
    (ecocycRequest "TCA").baseUrl = "https://metacyc.org/META/pathway-biopax" ∧
    urlHost (ecocycRequest "TCA").baseUrl = "metacyc.org" ∧
    urlHost (ecocycRequest "TCA").baseUrl ≠ "ecocyc.org" ∧
    (metacycRequest "TCA").baseUrl = "https://ecocyc.org/ECOLI/pathway-biopax" ∧
    urlHost (metacycRequest "TCA").baseUrl = "ecocyc.org" ∧
    urlHost (metacycRequest "TCA").baseUrl ≠ "metacyc.org" ∧
    (ecocycRequest "TCA").params = [("type", "3"), ("object", "TCA")] ∧
    (metacycRequest "TCA").params = [("type", "3"), ("object", "TCA")] := by
  decide

/-- Claim C9: for all finite gene sets and every integer universe size,
the four entries of the 2x2 matrix of `_prepare_hypergeometric_test` sum
exactly to the universe size, and the three set-derived entries are
non-negative. -/
theorem hypergeometric_matrix_sums_to_universe
    (queryGeneSet pathwayGeneSet : Finset String) (geneUniverse : Int) :
    (prepareHypergeometricTest queryGeneSet pathwayGeneSet geneUniverse).1.1 +
      (prepareHypergeometricTest queryGeneSet pathwayGeneSet geneUniverse).1.2 +
      (prepareHypergeometricTest queryGeneSet pathwayGeneSet geneUniverse).2.1 +
      (prepareHypergeometricTest queryGeneSet pathwayGeneSet geneUniverse).2.2
        = geneUniverse ∧
    0 ≤ (prepareHypergeometricTest queryGeneSet pathwayGeneSet geneUniverse).1.1 ∧
    0 ≤ (prepareHypergeometricTest queryGeneSet pathwayGeneSet geneUniverse).1.2 ∧
    0 ≤ (prepareHypergeometricTest queryGeneSet pathwayGeneSet geneUniverse).2.1 := by
  have h1 := Finset.card_inter_add_card_sdiff queryGeneSet pathwayGeneSet
  have h2 := Finset.card_sdiff_add_card pathwayGeneSet queryGeneSet
  simp only [prepareHypergeometricTest]
  refine ⟨?_, ?_, ?_, ?_⟩ <;> omega

/-- Claim C10: `get_protein_hgnc` returns None when `entity_reference`
is None; otherwise a direct `hgnc` xref takes priority, then an HGNC id
mapped from a `uniprot` xref, then one mapped from a `uniprot.isoform`
xref, and None comes back exactly when all three routes fail. -/
theorem get_protein_hgnc_priority (normDb getHgncId : String → Option String)
    (p : ProteinObj) :
    (p.entity_reference = none → get_protein_hgnc normDb getHgncId p = none) ∧
    (∀ er, p.entity_reference = some er →
      ((∀ h, xrefDictGet normDb er.xref "hgnc" = some h →
          get_protein_hgnc normDb getHgncId p = some h) ∧
       (xrefDictGet normDb er.xref "hgnc" = none →
          pyTruthy (uniprotRoute normDb getHgncId er) = true →
          get_protein_hgnc normDb getHgncId p = uniprotRoute normDb getHgncId er) ∧
       (xrefDictGet normDb er.xref "hgnc" = none →
          pyTruthy (uniprotRoute normDb getHgncId er) = false →
          pyTruthy (isoformRoute normDb getHgncId er) = true →
          get_protein_hgnc normDb getHgncId p = isoformRoute normDb getHgncId er) ∧
       (get_protein_hgnc normDb getHgncId p = none ↔
          (xrefDictGet normDb er.xref "hgnc" = none ∧
           pyTruthy (uniprotRoute normDb getHgncId er) = false ∧
           pyTruthy (isoformRoute normDb getHgncId er) = false)))) := by
  constructor
  · intro h
    simp [get_protein_hgnc, h]
  · intro er her
    have hU : uniprotRoute normDb getHgncId er = none ∨
        uniprotRoute normDb getHgncId er ≠ none := by
      rcases uniprotRoute normDb getHgncId er with _ | _ <;> simp
    refine ⟨?_, ?_, ?_, ?_⟩
    · intro h hh
      simp [get_protein_hgnc, her, hh]
    · intro hh hu
      simp [get_protein_hgnc, her, hh, hu]
    · intro hh hu hi
      simp [get_protein_hgnc, her, hh, hu, hi]
    · cases hh : xrefDictGet normDb er.xref "hgnc" with
      | some h0 => simp [get_protein_hgnc, her, hh]
      | none =>
        cases hu : pyTruthy (uniprotRoute normDb getHgncId er) with
        | true =>
          have : uniprotRoute normDb getHgncId er ≠ none := by
            intro hn; rw [hn] at hu; simp [pyTruthy] at hu
          simp [get_protein_hgnc, her, hh, hu, this]
        | false =>
          cases hi : pyTruthy (isoformRoute normDb getHgncId er) with
          | true =>
            have : isoformRoute normDb getHgncId er ≠ none := by
              intro hn; rw [hn] at hi; simp [pyTruthy] at hi
            simp [get_protein_hgnc, her, hh, hu, hi, this]
          | false =>
            simp [get_protein_hgnc, her, hh, hu, hi]

theorem get_protein_hgnc_priority_witness :
    get_protein_hgnc (fun s => some s) (fun _ => none)
      ⟨some ⟨[⟨"hgnc", "5173"⟩]⟩⟩ = some "5173" :=
  ((get_protein_hgnc_priority (fun s => some s) (fun _ => none)
      ⟨some ⟨[⟨"hgnc", "5173"⟩]⟩⟩).2 ⟨[⟨"hgnc", "5173"⟩]⟩ rfl).1 "5173" rfl

/-! ## Parser metatheory: the token-level reader recovers exactly what
the writer emits, and rejects everything else with a `ParseError` -/

theorem printNodes_cons (n : XNode) (ns : List XNode) :
    printNodes (n :: ns) = printNode n ++ printNodes ns := rfl

theorem printNodes_nil : printNodes [] = [] := rfl

theorem printNode_text (s : String) : printNode (XNode.text s) = [Tok.textTok s] := rfl

theorem printNode_elem (t : String) (a : List (String × String)) (cs : List XNode) :
    printNode (XNode.elem t a cs) =
      Tok.openTag t a :: (printNodes cs ++ [Tok.closeTag t]) := rfl

/-- Completeness of the forest parser: on the flattening of a forest
followed by a stopping point, it returns exactly that forest, consuming
exactly its tokens. -/
theorem parseNodes_printNodes :
    ∀ fuel ns pos rest, (printNodes ns).length < fuel → StopsHere rest →
      parseNodes fuel pos (printNodes ns ++ rest) =
        .ok (ns, rest, pos + (printNodes ns).length) := by
  intro fuel
  induction fuel with
  | zero => intro ns pos rest h _; omega
  | succ f ih =>
    intro ns pos rest hlen hstop
    match ns with
    | [] =>
      rcases hstop with h | ⟨t, r, h⟩ <;> subst h <;> simp [printNodes, parseNodes]
    | XNode.text s :: ns' =>
      have hl : (printNodes ns').length < f := by
        simp [printNodes_cons, printNode_text] at hlen; omega
      have hrec := ih ns' (pos + 1) rest hl hstop
      rw [printNodes_cons, printNode_text]
      simp only [List.cons_append, List.nil_append, List.singleton_append, parseNodes,
        List.append_assoc, List.append_eq]
      rw [hrec]
      simp only [Except.ok.injEq, Prod.mk.injEq, true_and, List.length_append,
        List.length_cons, List.length_singleton, printNodes_cons, printNode_text]
      omega
    | XNode.elem t a cs :: ns' =>
      have hlcs : (printNodes cs).length < f := by
        simp [printNodes_cons, printNode_elem] at hlen; omega
      have hlns : (printNodes ns').length < f := by
        simp [printNodes_cons, printNode_elem] at hlen; omega
      have hrec1 := ih cs (pos + 1) (Tok.closeTag t :: (printNodes ns' ++ rest)) hlcs
        (Or.inr ⟨t, printNodes ns' ++ rest, rfl⟩)
      have hrec2 := ih ns' (pos + 1 + (printNodes cs).length + 1) rest hlns hstop
      rw [printNodes_cons, printNode_elem]
      simp only [List.cons_append, List.nil_append, List.singleton_append, parseNodes,
        List.append_assoc, List.append_eq]
      rw [hrec1]
      simp only [if_pos rfl, hrec2]
      simp only [if_true, ite_true, Except.ok.injEq, Prod.mk.injEq, true_and,
        List.length_append, List.length_cons, List.length_singleton,
        printNodes_cons, printNode_elem]
      omega

/-- Soundness of the forest parser: whatever forest it returns, the
consumed tokens are exactly its flattening. -/
theorem parseNodes_sound :
    ∀ fuel pos toks ns rem p, parseNodes fuel pos toks = .ok (ns, rem, p) →
      toks = printNodes ns ++ rem := by
  intro fuel
  induction fuel with
  | zero => intro pos toks ns rem p h; simp [parseNodes] at h
  | succ f ih =>
    intro pos toks ns rem p h
    match toks with
    | [] =>
      simp only [parseNodes, Except.ok.injEq, Prod.mk.injEq] at h
      obtain ⟨h1, h2, _⟩ := h
      subst h1; subst h2; rfl
    | Tok.closeTag t :: rest =>
      simp only [parseNodes, Except.ok.injEq, Prod.mk.injEq] at h
      obtain ⟨h1, h2, _⟩ := h
      subst h1; subst h2; rfl
    | Tok.textTok s :: rest =>
      simp only [parseNodes] at h
      cases hr : parseNodes f (pos + 1) rest with
      | error e => rw [hr] at h; simp at h
      | ok val =>
        obtain ⟨ns1, rem1, p1⟩ := val
        rw [hr] at h
        simp only [Except.ok.injEq, Prod.mk.injEq] at h
        obtain ⟨h1, h2, _⟩ := h
        subst h1; subst h2
        have := ih _ _ _ _ _ hr
        simp [printNodes_cons, printNode_text, this]
    | Tok.openTag t a :: rest =>
      simp only [parseNodes] at h
      cases hr : parseNodes f (pos + 1) rest with
      | error e => rw [hr] at h; simp at h
      | ok val =>
        obtain ⟨cs, rem1, p1⟩ := val
        rw [hr] at h
        match hrem : rem1 with
        | [] => simp at h
        | Tok.openTag t2 a2 :: rest2 => simp at h
        | Tok.textTok s2 :: rest2 => simp at h
        | Tok.closeTag t2 :: rest2 =>
          simp only at h
          by_cases ht : t2 = t
          · rw [if_pos ht] at h
            cases hr2 : parseNodes f (p1 + 1) rest2 with
            | error e => rw [hr2] at h; simp at h
            | ok val2 =>
              obtain ⟨ns2, rem2, p2⟩ := val2
              rw [hr2] at h
              simp only [Except.ok.injEq, Prod.mk.injEq] at h
              obtain ⟨h1, h2, _⟩ := h
              subst h1; subst h2
              have e1 := ih _ _ _ _ _ hr
              have e2 := ih _ _ _ _ _ hr2
              subst ht
              simp [printNodes_cons, printNode_elem, e1, e2]
          · rw [if_neg ht] at h; simp at h

/-- The forest parser only ever fails with a `ParseError` (which carries
its input position). -/
theorem parseNodes_error_parseErr :
    ∀ fuel pos toks e, parseNodes fuel pos toks = .error e →
      ∃ l, e = BioPaxError.parseErr l := by
  intro fuel
  induction fuel with
  | zero =>
    intro pos toks e h
    simp only [parseNodes, Except.error.injEq] at h
    exact ⟨pos, h.symm⟩
  | succ f ih =>
    intro pos toks e h
    match toks with
    | [] => simp [parseNodes] at h
    | Tok.closeTag t :: rest => simp [parseNodes] at h
    | Tok.textTok s :: rest =>
      simp only [parseNodes] at h
      cases hr : parseNodes f (pos + 1) rest with
      | error e1 =>
        rw [hr] at h
        simp only [Except.error.injEq] at h
        subst h
        exact ih _ _ _ hr
      | ok val => obtain ⟨ns1, rem1, p1⟩ := val; rw [hr] at h; simp at h
    | Tok.openTag t a :: rest =>
      simp only [parseNodes] at h
      cases hr : parseNodes f (pos + 1) rest with
      | error e1 =>
        rw [hr] at h
        simp only [Except.error.injEq] at h
        subst h
        exact ih _ _ _ hr
      | ok val =>
        obtain ⟨cs, rem1, p1⟩ := val
        rw [hr] at h
        match hrem : rem1 with
        | [] => simp only [Except.error.injEq] at h; exact ⟨p1, h.symm⟩
        | Tok.openTag t2 a2 :: rest2 =>
          simp only [Except.error.injEq] at h; exact ⟨p1, h.symm⟩
        | Tok.textTok s2 :: rest2 =>
          simp only [Except.error.injEq] at h; exact ⟨p1, h.symm⟩
        | Tok.closeTag t2 :: rest2 =>
          simp only at h
          by_cases ht : t2 = t
          · rw [if_pos ht] at h
            cases hr2 : parseNodes f (p1 + 1) rest2 with
            | error e2 =>
              rw [hr2] at h
              simp only [Except.error.injEq] at h
              subst h
              exact ih _ _ _ hr2
            | ok val2 => obtain ⟨ns2, rem2, p2⟩ := val2; rw [hr2] at h; simp at h
          · rw [if_neg ht] at h
            simp only [Except.error.injEq] at h
            exact ⟨p1, h.symm⟩

/-- Soundness of `fromstring`: an accepted document is exactly the
flattening of the returned tree, and the root is an element. -/
theorem fromstring_sound (toks : List Tok) (n : XNode) (h : fromstring toks = .ok n) :
    toks = printNode n ∧ ∃ t a cs, n = XNode.elem t a cs := by
  unfold fromstring at h
  cases hp : parseNodes (toks.length + 1) 0 toks with
  | error e => rw [hp] at h; simp at h
  | ok val =>
    obtain ⟨ns, rem, pos⟩ := val
    rw [hp] at h
    match ns, rem with
    | [], _ => simp at h
    | [XNode.text s], _ => simp at h
    | XNode.elem t a cs :: x :: xs, _ => simp at h
    | XNode.text s :: x :: xs, _ => simp at h
    | [XNode.elem t a cs], r :: rs => simp at h
    | [XNode.elem t a cs], [] =>
      simp only [Except.ok.injEq] at h
      subst h
      have hs := parseNodes_sound _ _ _ _ _ _ hp
      refine ⟨?_, t, a, cs, rfl⟩
      rw [hs]
      simp [printNodes_cons, printNodes_nil]

/-- Completeness of `fromstring`: it accepts the flattening of any
element tree and returns exactly that tree. -/
theorem fromstring_print (t : String) (a : List (String × String)) (cs : List XNode) :
    fromstring (printNode (XNode.elem t a cs)) = .ok (XNode.elem t a cs) := by
  unfold fromstring
  have heq : printNode (XNode.elem t a cs) = printNodes [XNode.elem t a cs] ++ [] := by
    simp [printNodes_cons, printNodes_nil]
  rw [heq]
  rw [parseNodes_printNodes _ [XNode.elem t a cs] 0 [] (by simp) (Or.inl rfl)]

/-- `fromstring` only ever fails with a `ParseError`. -/
theorem fromstring_error_parseErr (toks : List Tok) (e : BioPaxError)
    (h : fromstring toks = .error e) : ∃ l, e = BioPaxError.parseErr l := by
  unfold fromstring at h
  cases hp : parseNodes (toks.length + 1) 0 toks with
  | error e1 =>
    rw [hp] at h
    simp only [Except.error.injEq] at h
    subst h
    exact parseNodes_error_parseErr _ _ _ _ hp
  | ok val =>
    obtain ⟨ns, rem, pos⟩ := val
    rw [hp] at h
    match ns, rem with
    | [], _ => simp only [Except.error.injEq] at h; exact ⟨pos, h.symm⟩
    | [XNode.text s], _ => simp only [Except.error.injEq] at h; exact ⟨pos, h.symm⟩
    | XNode.elem t a cs :: x :: xs, _ =>
      simp only [Except.error.injEq] at h; exact ⟨pos, h.symm⟩
    | XNode.text s :: x :: xs, _ =>
      simp only [Except.error.injEq] at h; exact ⟨pos, h.symm⟩
    | [XNode.elem t a cs], r :: rs =>
      simp only [Except.error.injEq] at h; exact ⟨pos, h.symm⟩
    | [XNode.elem t a cs], [] => simp at h

/-- Claim C3: on every input that is not well-formed XML,
`model_from_owl_str` fails with a `ParseError` (constructed with its
location context) — it neither returns a model nor fails with any other
kind of error. -/
theorem malformed_xml_gives_parse_error (toks : List Tok)
    (h : ¬ WellFormedXml toks) :
    ∃ loc, model_from_owl_str toks = .error (BioPaxError.parseErr loc) := by
  cases hf : fromstring toks with
  | ok n =>
    obtain ⟨hp, t, a, cs, hn⟩ := fromstring_sound toks n hf
    exact absurd ⟨t, a, cs, by rw [hp, hn]⟩ h
  | error e =>
    obtain ⟨l, rfl⟩ := fromstring_error_parseErr toks e hf
    refine ⟨l, ?_⟩
    unfold model_from_owl_str
    rw [hf]

theorem malformed_xml_gives_parse_error_witness :
    ¬ WellFormedXml [Tok.closeTag "x"] ∧
    ∃ loc, model_from_owl_str [Tok.closeTag "x"]
      = .error (BioPaxError.parseErr loc) := by
  have hnw : ¬ WellFormedXml [Tok.closeTag "x"] := by
    rintro ⟨t, a, cs, hcontra⟩
    rw [printNode_elem] at hcontra
    simp at hcontra
  exact ⟨hnw, malformed_xml_gives_parse_error [Tok.closeTag "x"] hnw⟩

/-! ## Population refolds its own flattening

The writer flattens an attribute map into property pairs; these lemmas
show the population fold reconstructs the original map exactly. -/

theorem alookup_eq_none {β : Type} (l : List (String × β)) (n : String) :
    alookup l n = none ↔ n ∉ l.map Prod.fst := by
  induction l with
  | nil => simp [alookup]
  | cons q l ih =>
    obtain ⟨m, w⟩ := q
    by_cases hm : m = n
    · subst hm
      simp [alookup]
    · rw [List.map_cons]
      simp only [alookup, if_neg hm, List.mem_cons, not_or, ih]
      constructor
      · intro hn
        exact ⟨fun he => hm he.symm, hn⟩
      · intro hn
        exact hn.2

theorem alookup_append_right {β : Type} (acc l : List (String × β)) (n : String)
    (h : n ∉ acc.map Prod.fst) : alookup (acc ++ l) n = alookup l n := by
  induction acc with
  | nil => rfl
  | cons q acc ih =>
    obtain ⟨m, w⟩ := q
    have hm : m ≠ n := by
      intro he
      subst he
      simp at h
    simp only [List.cons_append, alookup, if_neg hm]
    apply ih
    intro hn
    apply h
    simp [hn]

theorem setAttr_append {β : Type} (acc : List (String × β)) (n : String) (w v : β)
    (h : n ∉ acc.map Prod.fst) : setAttr (acc ++ [(n, w)]) n v = acc ++ [(n, v)] := by
  induction acc with
  | nil => simp [setAttr]
  | cons q acc ih =>
    obtain ⟨m, u⟩ := q
    have hm : m ≠ n := by
      intro he
      subst he
      simp at h
    simp only [List.cons_append, setAttr, if_neg hm, List.cons.injEq, true_and]
    apply ih
    intro hn
    apply h
    simp [hn]

theorem addProp_new_single (lt : List String) (acc : List (String × AttrVal))
    (n : String) (v : AVal) (hacc : n ∉ acc.map Prod.fst) (hlt : n ∉ lt) :
    addProp lt acc n v = acc ++ [(n, AttrVal.single v)] := by
  simp only [addProp, if_neg hlt, (alookup_eq_none acc n).2 hacc]

theorem addProp_new_multi (lt : List String) (acc : List (String × AttrVal))
    (n : String) (v : AVal) (hacc : n ∉ acc.map Prod.fst) (hlt : n ∈ lt) :
    addProp lt acc n v = acc ++ [(n, AttrVal.multi [v])] := by
  simp only [addProp, if_pos hlt, (alookup_eq_none acc n).2 hacc]

theorem addProp_grow_multi (lt : List String) (acc : List (String × AttrVal))
    (n : String) (vs : List AVal) (v : AVal)
    (hacc : n ∉ acc.map Prod.fst) (hlt : n ∈ lt) :
    addProp lt (acc ++ [(n, AttrVal.multi vs)]) n v
      = acc ++ [(n, AttrVal.multi (vs ++ [v]))] := by
  have hl : alookup (acc ++ [(n, AttrVal.multi vs)]) n = some (AttrVal.multi vs) := by
    rw [alookup_append_right acc _ n hacc]
    simp [alookup]
  simp only [addProp, if_pos hlt, hl]
  exact setAttr_append acc n _ _ hacc

theorem foldl_popStep_multi (lt : List String) (acc : List (String × AttrVal))
    (n : String) (hacc : n ∉ acc.map Prod.fst) (hlt : n ∈ lt) :
    ∀ vs pref, List.foldl (popStep lt) (acc ++ [(n, AttrVal.multi pref)])
        (vs.map (fun v => (n, v)))
      = acc ++ [(n, AttrVal.multi (pref ++ vs))] := by
  intro vs
  induction vs with
  | nil => intro pref; simp
  | cons v vs ih =>
    intro pref
    simp only [List.map_cons, List.foldl_cons, popStep]
    rw [addProp_grow_multi lt acc n pref v hacc hlt, ih (pref ++ [v])]
    simp

theorem foldl_popStep_flatAttr (lt : List String) (acc : List (String × AttrVal))
    (p : String × AttrVal) (hacc : p.1 ∉ acc.map Prod.fst) (hg : GoodShape lt p) :
    List.foldl (popStep lt) acc (flatAttr p) = acc ++ [p] := by
  obtain ⟨n, v⟩ := p
  cases v with
  | single v =>
    have hlt : n ∉ lt := hg
    simp only [flatAttr, List.foldl_cons, List.foldl_nil, popStep]
    exact addProp_new_single lt acc n v hacc hlt
  | multi vs =>
    obtain ⟨hlt, hne⟩ := hg
    match vs, hne with
    | v :: vs', _ =>
      simp only [flatAttr, List.map_cons, List.foldl_cons, popStep]
      rw [addProp_new_multi lt acc n v hacc hlt,
        foldl_popStep_multi lt acc n hacc hlt vs' [v]]
      simp

theorem foldl_popStep_flatten (lt : List String) :
    ∀ (attrs acc : List (String × AttrVal)), NodupKeys attrs →
      (∀ p ∈ attrs, GoodShape lt p) →
      (∀ k ∈ attrs.map Prod.fst, k ∉ acc.map Prod.fst) →
      List.foldl (popStep lt) acc (attrs.flatMap flatAttr) = acc ++ attrs := by
  intro attrs
  induction attrs with
  | nil =>
    intro acc _ _ _
    simp
  | cons p attrs ih =>
    intro acc hnd hg hdisj
    have hnd' : NodupKeys attrs ∧ p.1 ∉ attrs.map Prod.fst := by
      have := hnd
      simp only [NodupKeys, List.map_cons, List.nodup_cons] at this
      exact ⟨this.2, this.1⟩
    rw [List.flatMap_cons, List.foldl_append,
      foldl_popStep_flatAttr lt acc p (hdisj p.1 (by simp)) (hg p (by simp)),
      ih (acc ++ [p]) hnd'.1 (fun q hq => hg q (by simp [hq]))]
    · simp
    · intro k hk
      simp only [List.map_append, List.map_cons, List.map_nil, List.mem_append,
        List.mem_singleton, not_or]
      refine ⟨hdisj k (by simp [hk]), ?_⟩
      intro he
      subst he
      exact hnd'.2 hk

/-! ## The reader recognizes exactly what the writer emits, per object -/

theorem propOfXml_attrToXml (n : String) (v : AVal) :
    propOfXml (attrToXml n v) = some (n, v) := by
  cases v <;> simp [attrToXml, propOfXml]

theorem attrEntry_flat (p : String × AttrVal) :
    (attrEntryToXml p).filterMap propOfXml = flatAttr p := by
  obtain ⟨n, v⟩ := p
  cases v with
  | single v =>
    simp [attrEntryToXml, flatAttr, List.filterMap_cons, propOfXml_attrToXml]
  | multi vs =>
    induction vs with
    | nil => simp [attrEntryToXml, flatAttr]
    | cons v vs ih =>
      simp only [attrEntryToXml, flatAttr, List.map_cons, List.filterMap_cons,
        propOfXml_attrToXml] at ih ⊢
      rw [ih]

theorem flatten_props (attrs : List (String × AttrVal)) :
    (attrs.flatMap attrEntryToXml).filterMap propOfXml = attrs.flatMap flatAttr := by
  induction attrs with
  | nil => simp
  | cons p attrs ih =>
    simp only [List.flatMap_cons, List.filterMap_append, ih, attrEntry_flat]

theorem readRecord_objToXml (o : BObj) :
    readRecord (objToXml o)
      = some ⟨o.cls, some o.uid, o.attrs.flatMap flatAttr⟩ := by
  simp [readRecord, objToXml, alookup, flatten_props]

theorem buildObj_record (reg : String → Option (List String)) (lt : List String)
    (o : BObj) (hreg : reg o.cls = some lt) (hnd : NodupKeys o.attrs)
    (hg : ∀ p ∈ o.attrs, GoodShape lt p) :
    buildObj reg ⟨o.cls, some o.uid, o.attrs.flatMap flatAttr⟩ = some o := by
  simp only [buildObj, hreg, Option.some.injEq]
  have hf := foldl_popStep_flatten lt o.attrs [] hnd hg (by simp)
  obtain ⟨cls, uid, attrs⟩ := o
  simp only at hf ⊢
  rw [hf]
  simp

/-! ## Population preserves well-formed attribute maps -/

theorem setAttr_keys_of_mem {β : Type} (l : List (String × β)) (n : String) (v : β)
    (h : n ∈ l.map Prod.fst) :
    (setAttr l n v).map Prod.fst = l.map Prod.fst := by
  induction l with
  | nil => simp at h
  | cons q l ih =>
    obtain ⟨m, w⟩ := q
    by_cases hm : m = n
    · subst hm
      simp [setAttr]
    · have hn : n ∈ l.map Prod.fst := by
        rcases List.mem_cons.1 h with he | he
        · exact absurd he.symm hm
        · exact he
      simp [setAttr, hm, ih hn]

theorem mem_setAttr {β : Type} (l : List (String × β)) (n : String) (v : β) :
    ∀ q ∈ setAttr l n v, q = (n, v) ∨ q ∈ l := by
  induction l with
  | nil =>
    intro q hq
    simp only [setAttr, List.mem_singleton] at hq
    exact Or.inl hq
  | cons r l ih =>
    obtain ⟨m, w⟩ := r
    intro q hq
    by_cases hm : m = n
    · subst hm
      simp [setAttr] at hq
      rcases hq with hq | hq
      · exact Or.inl hq
      · exact Or.inr (List.mem_cons_of_mem _ hq)
    · simp only [setAttr, if_neg hm, List.mem_cons] at hq
      rcases hq with hq | hq
      · exact Or.inr (by simp [hq])
      · rcases ih q hq with h1 | h1
        · exact Or.inl h1
        · exact Or.inr (List.mem_cons_of_mem _ h1)

theorem nodupKeys_append_singleton {β : Type} (l : List (String × β)) (n : String)
    (v : β) (h1 : NodupKeys l) (h : n ∉ l.map Prod.fst) :
    NodupKeys (l ++ [(n, v)]) := by
  simp only [NodupKeys, List.map_append, List.map_cons, List.map_nil]
  rw [List.nodup_append]
  refine ⟨h1, by simp, ?_⟩
  intro k hk
  simp only [List.mem_singleton]
  intro he
  subst he
  exact h hk

theorem nodupKeys_setAttr {β : Type} (l : List (String × β)) (n : String) (v : β)
    (h1 : NodupKeys l) (hmem : n ∈ l.map Prod.fst) : NodupKeys (setAttr l n v) := by
  unfold NodupKeys
  rw [setAttr_keys_of_mem l n v hmem]
  exact h1

theorem alookup_mem_of_some {β : Type} (l : List (String × β)) (n : String) (w : β)
    (h : alookup l n = some w) : n ∈ l.map Prod.fst := by
  by_contra hh
  rw [(alookup_eq_none l n).2 hh] at h
  simp at h

theorem addProp_wf (lt : List String) (attrs : List (String × AttrVal)) (n : String)
    (v : AVal) (h1 : NodupKeys attrs) (h2 : ∀ p ∈ attrs, GoodShape lt p) :
    NodupKeys (addProp lt attrs n v) ∧
      ∀ p ∈ addProp lt attrs n v, GoodShape lt p := by
  by_cases hlt : n ∈ lt
  · cases hal : alookup attrs n with
    | none =>
      have hmem : n ∉ attrs.map Prod.fst := (alookup_eq_none attrs n).1 hal
      simp only [addProp, if_pos hlt, hal]
      refine ⟨nodupKeys_append_singleton attrs n _ h1 hmem, ?_⟩
      intro p hp
      rcases List.mem_append.1 hp with hp | hp
      · exact h2 p hp
      · rw [List.mem_singleton.1 hp]
        exact ⟨hlt, by simp⟩
    | some w =>
      have hmem := alookup_mem_of_some attrs n w hal
      cases w with
      | multi vs =>
        simp only [addProp, if_pos hlt, hal]
        refine ⟨nodupKeys_setAttr attrs n _ h1 hmem, ?_⟩
        intro p hp
        rcases mem_setAttr attrs n _ p hp with hp | hp
        · rw [hp]
          exact ⟨hlt, by simp⟩
        · exact h2 p hp
      | single w0 =>
        simp only [addProp, if_pos hlt, hal]
        refine ⟨nodupKeys_setAttr attrs n _ h1 hmem, ?_⟩
        intro p hp
        rcases mem_setAttr attrs n _ p hp with hp | hp
        · rw [hp]
          exact ⟨hlt, by simp⟩
        · exact h2 p hp
  · cases hal : alookup attrs n with
    | none =>
      have hmem : n ∉ attrs.map Prod.fst := (alookup_eq_none attrs n).1 hal
      simp only [addProp, if_neg hlt, hal]
      refine ⟨nodupKeys_append_singleton attrs n _ h1 hmem, ?_⟩
      intro p hp
      rcases List.mem_append.1 hp with hp | hp
      · exact h2 p hp
      · rw [List.mem_singleton.1 hp]
        exact hlt
    | some w =>
      have hmem := alookup_mem_of_some attrs n w hal
      simp only [addProp, if_neg hlt, hal]
      refine ⟨nodupKeys_setAttr attrs n _ h1 hmem, ?_⟩
      intro p hp
      rcases mem_setAttr attrs n _ p hp with hp | hp
      · rw [hp]
        exact hlt
      · exact h2 p hp

theorem foldl_popStep_wf (lt : List String) (props : List (String × AVal)) :
    ∀ acc, NodupKeys acc → (∀ p ∈ acc, GoodShape lt p) →
      NodupKeys (props.foldl (popStep lt) acc) ∧
        ∀ p ∈ props.foldl (popStep lt) acc, GoodShape lt p := by
  induction props with
  | nil =>
    intro acc hp1 hp2
    exact ⟨hp1, hp2⟩
  | cons q props ih =>
    intro acc hp1 hp2
    rw [List.foldl_cons]
    obtain ⟨g1, g2⟩ := addProp_wf lt acc q.1 q.2 hp1 hp2
    exact ih _ g1 g2

theorem buildObj_wf (reg : String → Option (List String)) (r : ElemRecord) (o : BObj)
    (h : buildObj reg r = some o) : WFObj reg o := by
  unfold buildObj at h
  cases hreg : reg r.tag with
  | none => rw [hreg] at h; simp at h
  | some lt =>
    rw [hreg] at h
    cases huid : r.uid with
    | none => rw [huid] at h; simp at h
    | some u =>
      rw [huid] at h
      simp only [Option.some.injEq] at h
      subst h
      obtain ⟨g1, g2⟩ := foldl_popStep_wf lt r.props [] (by simp [NodupKeys]) (by simp)
      exact ⟨lt, hreg, g1, g2⟩

/-! ## Upserting keyed by identifier -/

theorem mem_upsertObj (objs : List BObj) (o : BObj) :
    ∀ x ∈ upsertObj objs o, x = o ∨ x ∈ objs := by
  unfold upsertObj
  split
  · intro x hx
    obtain ⟨x0, hx0, he⟩ := List.mem_map.1 hx
    by_cases hc : x0.uid = o.uid
    · rw [if_pos hc] at he
      exact Or.inl he.symm
    · rw [if_neg hc] at he
      exact Or.inr (he ▸ hx0)
  · intro x hx
    rcases List.mem_append.1 hx with hx | hx
    · exact Or.inr hx
    · exact Or.inl (List.mem_singleton.1 hx)

theorem upsertObj_uids (objs : List BObj) (o : BObj) :
    (upsertObj objs o).map BObj.uid = objs.map BObj.uid ∨
    ((upsertObj objs o).map BObj.uid = objs.map BObj.uid ++ [o.uid] ∧
      o.uid ∉ objs.map BObj.uid) := by
  unfold upsertObj
  by_cases hany : objs.any (fun x => x.uid = o.uid)
  · rw [if_pos hany]
    left
    rw [List.map_map]
    apply List.map_eq_map_iff.mpr
    intro x _
    by_cases hc : x.uid = o.uid
    · simp [hc]
    · simp [hc]
  · rw [if_neg hany]
    right
    constructor
    · simp
    · intro hmem
      obtain ⟨x, hx, he⟩ := List.mem_map.1 hmem
      apply hany
      exact List.any_eq_true.2 ⟨x, hx, by simp [he]⟩

theorem foldl_upsert_uids_nodup :
    ∀ (l acc : List BObj), (acc.map BObj.uid).Nodup →
      ((List.foldl upsertObj acc l).map BObj.uid).Nodup := by
  intro l
  induction l with
  | nil => intro acc h; exact h
  | cons o l ih =>
    intro acc h
    rw [List.foldl_cons]
    apply ih
    rcases upsertObj_uids acc o with he | ⟨he, hnot⟩
    · rw [he]; exact h
    · rw [he]
      rw [List.nodup_append]
      refine ⟨h, by simp, ?_⟩
      intro k hk
      simp only [List.mem_singleton]
      intro hke
      subst hke
      exact hnot hk

theorem foldl_upsert_all (P : BObj → Prop) :
    ∀ (l acc : List BObj), (∀ o ∈ acc, P o) → (∀ o ∈ l, P o) →
      ∀ o ∈ List.foldl upsertObj acc l, P o := by
  intro l
  induction l with
  | nil => intro acc hacc _; exact hacc
  | cons x l ih =>
    intro acc hacc hl
    rw [List.foldl_cons]
    apply ih
    · intro o ho
      rcases mem_upsertObj acc x o ho with he | he
      · rw [he]; exact hl x (by simp)
      · exact hacc o he
    · intro o ho
      exact hl o (by simp [ho])

theorem foldl_upsert_fresh :
    ∀ (l acc : List BObj), ((acc ++ l).map BObj.uid).Nodup →
      List.foldl upsertObj acc l = acc ++ l := by
  intro l
  induction l with
  | nil => intro acc _; simp
  | cons o l ih =>
    intro acc hnd
    have hfresh : ∀ x ∈ acc, ¬ (x.uid = o.uid) := by
      intro x hx he
      rw [List.map_append] at hnd
      have hdisj := (List.nodup_append.1 hnd).2.2
      exact hdisj (List.mem_map_of_mem BObj.uid hx) (by simp [he])
    have hany : acc.any (fun x => x.uid = o.uid) = false := by
      simp only [List.any_eq_false, decide_eq_true_eq]
      exact hfresh
    rw [List.foldl_cons]
    rw [show upsertObj acc o = acc ++ [o] from by rw [upsertObj, hany]; simp]
    rw [ih (acc ++ [o]) (by simpa using hnd)]
    simp

/-! ## The parse path only produces well-formed models, and the
writer/reader pair is the identity on them -/

theorem from_xml_wf (reg : String → Option (List String)) (root : XNode) (m : Model)
    (h : Model.from_xml reg root = .ok m) : WFModel reg m := by
  match root with
  | XNode.text s => simp [Model.from_xml] at h
  | XNode.elem t a children =>
    simp only [Model.from_xml] at h
    cases hd : (builtObjs reg children).findSome?
        (objDangling ((builtObjs reg children).map BObj.uid)) with
    | some p =>
      rw [hd] at h
      obtain ⟨u0, a0⟩ := p
      simp at h
    | none =>
      rw [hd] at h
      simp only [Except.ok.injEq] at h
      subst h
      refine ⟨?_, ?_, ?_⟩
      · exact foldl_upsert_uids_nodup _ [] (by simp)
      · intro o ho
        refine foldl_upsert_all (WFObj reg) _ [] (by simp) ?_ o ho
        intro o' ho'
        obtain ⟨r, _, hr⟩ := List.mem_filterMap.1 ho'
        exact buildObj_wf reg r o' hr
      · intro o ho u hu
        have hnone := List.findSome?_eq_none_iff.1 hd o ho
        unfold objDangling at hnone
        unfold objRefs at hu
        obtain ⟨p, hp, hup⟩ := List.mem_flatMap.1 hu
        have hpn := List.findSome?_eq_none_iff.1 hnone p hp
        rw [Option.map_eq_none'] at hpn
        have hnp := List.find?_eq_none.1 hpn u hup
        have hc : ((builtObjs reg children).map BObj.uid).contains u = true := by
          revert hnp
          cases hcc : ((builtObjs reg children).map BObj.uid).contains u <;> simp [hcc]
        exact List.elem_iff.1 hc

theorem from_xml_to_xml (reg : String → Option (List String)) (m : Model)
    (h : WFModel reg m) : Model.from_xml reg (Model.to_xml m) = .ok m := by
  obtain ⟨hnd, hwf, hclosed⟩ := h
  have hbuilt : builtObjs reg (m.objects.map objToXml) = m.objects := by
    unfold builtObjs
    have hrec : (m.objects.map objToXml).filterMap readRecord =
        m.objects.map (fun o : BObj =>
          (⟨o.cls, some o.uid, o.attrs.flatMap flatAttr⟩ : ElemRecord)) := by
      rw [List.filterMap_map]
      exact List.filterMap_eq_map_iff_forall_eq_some.mpr
        (fun o _ => readRecord_objToXml o)
    have hbld : (m.objects.map (fun o : BObj =>
          (⟨o.cls, some o.uid, o.attrs.flatMap flatAttr⟩ : ElemRecord))).filterMap
            (buildObj reg) = m.objects := by
      rw [List.filterMap_map]
      have h2 : ∀ o ∈ m.objects,
          (buildObj reg ∘ fun o : BObj =>
            (⟨o.cls, some o.uid, o.attrs.flatMap flatAttr⟩ : ElemRecord)) o
            = some o := by
        intro o ho
        obtain ⟨lt, hreg, hnd', hg⟩ := hwf o ho
        exact buildObj_record reg lt o hreg hnd' hg
      rw [List.filterMap_congr h2, List.filterMap_some]
    rw [hrec, hbld]
    exact foldl_upsert_fresh m.objects [] (by simpa using hnd)
  have hdang : m.objects.findSome? (objDangling (m.objects.map BObj.uid)) = none := by
    apply List.findSome?_eq_none_iff.2
    intro o ho
    unfold objDangling
    apply List.findSome?_eq_none_iff.2
    intro p hp
    rw [Option.map_eq_none']
    apply List.find?_eq_none.2
    intro u hu
    have humem : u ∈ m.objects.map BObj.uid :=
      hclosed o ho u (by unfold objRefs; exact List.mem_flatMap.2 ⟨p, hp, hu⟩)
    have hc : (m.objects.map BObj.uid).contains u = true := List.elem_iff.2 humem
    rw [hc]
    simp
  show Model.from_xml reg (XNode.elem "rdf:RDF" [] (m.objects.map objToXml)) = .ok m
  simp only [Model.from_xml]
  rw [hbuilt, hdang]

/-- Claim C1 (round-trip idempotence): for every model `M` produced by
parsing (`model_from_owl_str`), re-parsing its serialization
(`model_from_owl_str` applied to `model_to_owl_str M`) returns exactly
`M` — the same objects with the same attribute values and the same
reference structure, in the model's stable identifier order. -/
theorem parse_serialize_roundtrip (doc : List Tok) (m : Model)
    (h : model_from_owl_str doc = .ok m) :
    model_from_owl_str (model_to_owl_str m) = .ok m := by
  have hwf : WFModel bioPaxRegistry m := by
    unfold model_from_owl_str at h
    cases hf : fromstring doc with
    | error e => rw [hf] at h; simp at h
    | ok tree => rw [hf] at h; exact from_xml_wf bioPaxRegistry tree m h
  unfold model_from_owl_str model_to_owl_str
  rw [show Model.to_xml m = XNode.elem "rdf:RDF" [] (m.objects.map objToXml) from rfl]
  rw [fromstring_print]
  exact from_xml_to_xml bioPaxRegistry m hwf

theorem parse_serialize_roundtrip_witness :
    model_from_owl_str (printNode (XNode.elem "rdf:RDF" []
        [XNode.elem "Protein" [("rdf:about", "p1")]
          [XNode.elem "comment" [] [XNode.text "hi"],
           XNode.elem "feature" [("rdf:resource", "p1")] [],
           XNode.elem "feature" [("rdf:resource", "p1")] []]]))
      = .ok ⟨[⟨"Protein", "p1",
          [("comment", AttrVal.single (AVal.lit "hi")),
           ("feature", AttrVal.multi [AVal.ref "p1", AVal.ref "p1"])]⟩]⟩ ∧
    model_from_owl_str (model_to_owl_str
        ⟨[⟨"Protein", "p1",
          [("comment", AttrVal.single (AVal.lit "hi")),
           ("feature", AttrVal.multi [AVal.ref "p1", AVal.ref "p1"])]⟩]⟩)
      = .ok ⟨[⟨"Protein", "p1",
          [("comment", AttrVal.single (AVal.lit "hi")),
           ("feature", AttrVal.multi [AVal.ref "p1", AVal.ref "p1"])]⟩]⟩ :=
  ⟨rfl,
   parse_serialize_roundtrip
     (printNode (XNode.elem "rdf:RDF" []
       [XNode.elem "Protein" [("rdf:about", "p1")]
         [XNode.elem "comment" [] [XNode.text "hi"],
          XNode.elem "feature" [("rdf:resource", "p1")] [],
          XNode.elem "feature" [("rdf:resource", "p1")] []]]))
     ⟨[⟨"Protein", "p1",
       [("comment", AttrVal.single (AVal.lit "hi")),
        ("feature", AttrVal.multi [AVal.ref "p1", AVal.ref "p1"])]⟩]⟩
     rfl⟩

end PyBioPax
